import Mathlib

/-!
Verification of the 32datasources auction scraping service
(source: src/scrape_auction.py).

The development shallowly embeds the pure core of the program:
the keyword filter engine (`apply_filters_to_items`), the bounded
log buffer (`add_log`), the total-raised display computation of
`main` (numeric parse with fallback), the pagination walker
(`fetch_auction_items` as `crawlLoop`), one scrape cycle
(`run_cycle` over oracles for the external calls), the scheduler
control loop of `main` as a step machine (`tick` / `exec`), and the
event bus (`publish_event` over per-subscriber queues).

Python strings are modelled as Lean `String`; case folding is
character-wise `Char.toLower`; Python float values are modelled as
rationals; the binary rounding of `float` formatting is abstracted
as exact rational rounding (half up), which agrees with CPython on
every value appearing in the concrete claims.
-/

/-! ## Records and the filter engine (lines 170-190 of the source) -/

/-- One auction item as produced by `fetch_auction_items`: a dict with
the six scraped fields, each possibly `None`. -/
structure Record where
  title : Option String
  picture_url : Option String := none
  price : Option String := none
  remaining : Option String := none
  value : Option String := none
  bids : Option String := none
deriving DecidableEq

/-- Character-wise lower casing of a string, modelling `str.lower()`. -/
def lowerChars (s : String) : List Char :=
  s.data.map Char.toLower

/-- Substring containment test, modelling the Python expression
`needle in hay` on strings. -/
def isInfixB (needle : List Char) : List Char → Bool
  | [] => needle.isEmpty
  | c :: rest => needle.isPrefixOf (c :: rest) || isInfixB needle rest

/-- The key the filter engine matches against:
`(item.get('title') or '').lower()`. A missing (`None`) title and an
empty title both give the empty key. -/
def titleKey (r : Record) : List Char :=
  lowerChars (r.title.getD "")

/-- `[(f, f.lower()) for f in filters if f]`: the active filters paired
with their lower-cased form, empty (falsy) strings dropped. -/
def activeFilters (filters : List String) : List (String × List Char) :=
  (filters.filter (fun f => !(f == ""))).map (fun f => (f, lowerChars f))

/-- The inner `for original, term in active_filters` loop: the first
term contained in the lowered title wins, and its original spelling is
returned. -/
def firstMatch (active : List (String × List Char)) (tl : List Char) : Option String :=
  match active with
  | [] => none
  | (original, term) :: rest =>
      if isInfixB term tl then some original else firstMatch rest tl

/-- The `for item in items` loop of `apply_filters_to_items`, returning
`(filtered_items, filtered_out)` in traversal order. -/
def applyGo (active : List (String × List Char)) :
    List Record → List Record × List (Record × String)
  | [] => ([], [])
  | item :: rest =>
      let res := applyGo active rest
      match firstMatch active (titleKey item) with
      | some t => (res.1, (item, t) :: res.2)
      | none => (item :: res.1, res.2)

/-- `apply_filters_to_items(items)` of the source, with the global
`filters` list passed explicitly: if no active filter remains the input
is returned unchanged, otherwise the records are split into kept items
and `(item, matched_term)` pairs. -/
def apply_filters_to_items (filters : List String) (items : List Record) :
    List Record × List (Record × String) :=
  let active := activeFilters filters
  if active.isEmpty then (items, []) else applyGo active items

/-! ### Filter engine lemmas -/

theorem applyGo_perm (active : List (String × List Char)) (items : List Record) :
    ((applyGo active items).1 ++ (applyGo active items).2.map Prod.fst).Perm items := by
  induction items with
  | nil => simp [applyGo]
  | cons item rest ih =>
      rcases h : firstMatch active (titleKey item) with _ | t
      · simpa [applyGo, h] using ih.cons item
      · simp only [applyGo, h]
        exact (List.perm_middle.trans (ih.cons item))

theorem applyGo_kept_none (active : List (String × List Char)) (items : List Record)
    (x : Record) (hx : x ∈ (applyGo active items).1) :
    firstMatch active (titleKey x) = none := by
  induction items with
  | nil => simp [applyGo] at hx
  | cons item rest ih =>
      rcases h : firstMatch active (titleKey item) with _ | t
      · simp only [applyGo, h] at hx
        rcases List.mem_cons.mp hx with h1 | h1
        · subst h1; exact h
        · exact ih h1
      · simp only [applyGo, h] at hx
        exact ih hx

theorem applyGo_rej (active : List (String × List Char)) (items : List Record)
    (p : Record × String) (hp : p ∈ (applyGo active items).2) :
    firstMatch active (titleKey p.1) = some p.2 := by
  induction items with
  | nil => simp [applyGo] at hp
  | cons item rest ih =>
      rcases h : firstMatch active (titleKey item) with _ | t
      · simp only [applyGo, h] at hp
        exact ih hp
      · simp only [applyGo, h] at hp
        rcases List.mem_cons.mp hp with h1 | h1
        · subst h1; exact h
        · exact ih h1

theorem applyGo_mem_rej (active : List (String × List Char)) (items : List Record)
    (r : Record) (t : String) (hr : r ∈ items)
    (hm : firstMatch active (titleKey r) = some t) :
    (r, t) ∈ (applyGo active items).2 := by
  induction items with
  | nil => simp at hr
  | cons item rest ih =>
      rcases List.mem_cons.mp hr with h1 | h1
      · subst h1
        simp only [applyGo, hm]
        exact List.mem_cons_self _ _
      · rcases h : firstMatch active (titleKey item) with _ | u
        · simp only [applyGo, h]
          exact ih h1
        · simp only [applyGo, h]
          exact List.mem_cons_of_mem _ (ih h1)

theorem applyGo_mem_kept (active : List (String × List Char)) (items : List Record)
    (r : Record) (hr : r ∈ items)
    (hm : firstMatch active (titleKey r) = none) :
    r ∈ (applyGo active items).1 := by
  induction items with
  | nil => simp at hr
  | cons item rest ih =>
      rcases List.mem_cons.mp hr with h1 | h1
      · subst h1
        simp only [applyGo, hm]
        exact List.mem_cons_self _ _
      · rcases h : firstMatch active (titleKey item) with _ | u
        · simp only [applyGo, h]
          exact List.mem_cons_of_mem _ (ih h1)
        · simp only [applyGo, h]
          exact ih h1

/-- C1 sanity example. -/
example : apply_filters_to_items ["raffle"] [{ title := some "RAFFLE basket" }] =
    ([], [({ title := some "RAFFLE basket" }, "raffle")]) := by decide

/-- C1: the filter application partitions the input exactly: the kept
list together with the records of the rejected list is a permutation of
the input, no record occurs on both sides, and an empty filter set
returns the input unchanged with nothing rejected. -/
theorem c1_partition_exact (R : List Record) (F : List String) :
    apply_filters_to_items [] R = (R, []) ∧
    ((apply_filters_to_items F R).1 ++
      (apply_filters_to_items F R).2.map Prod.fst).Perm R ∧
    (apply_filters_to_items F R).1.Disjoint
      ((apply_filters_to_items F R).2.map Prod.fst) := by
  refine ⟨by simp [apply_filters_to_items, activeFilters], ?_, ?_⟩
  · unfold apply_filters_to_items
    rcases h : activeFilters F with _ | ⟨a, rest⟩
    · simp
    · simpa [h] using applyGo_perm (a :: rest) R
  · unfold apply_filters_to_items
    rcases h : activeFilters F with _ | ⟨a, rest⟩
    · simp
    · simp only [h, List.isEmpty_cons, if_false, Bool.false_eq_true]
      intro x hx hx2
      rcases List.mem_map.mp hx2 with ⟨p, hp, hpx⟩
      have h1 := applyGo_kept_none (a :: rest) R x hx
      have h2 := applyGo_rej (a :: rest) R p hp
      rw [hpx] at h2
      rw [h1] at h2
      cases h2

theorem activeFilters_of_nonempty (F : List String) (hok : ∀ f ∈ F, f ≠ "") :
    activeFilters F = F.map (fun f => (f, lowerChars f)) := by
  unfold activeFilters
  congr 1
  apply List.filter_eq_self.mpr
  intro a ha
  simpa using hok a ha

theorem firstMatch_map (F : List String) (tl : List Char) :
    firstMatch (F.map (fun f => (f, lowerChars f))) tl =
      F.find? (fun t => isInfixB (lowerChars t) tl) := by
  induction F with
  | nil => rfl
  | cons f rest ih =>
      by_cases h : isInfixB (lowerChars f) tl
      · simp [firstMatch, List.find?, h]
      · simp only [List.map_cons, firstMatch, if_neg h, ih, List.find?]
        simp [h]

theorem apply_filters_eq_applyGo (F : List String) (R : List Record)
    (hne : F ≠ []) (hok : ∀ f ∈ F, f ≠ "") :
    apply_filters_to_items F R =
      applyGo (F.map (fun f => (f, lowerChars f))) R := by
  unfold apply_filters_to_items
  rw [activeFilters_of_nonempty F hok]
  rcases F with _ | ⟨f, rest⟩
  · exact absurd rfl hne
  · simp

theorem lowerChars_ne_nil (t : String) (ht : t ≠ "") : lowerChars t ≠ [] := by
  intro h
  apply ht
  unfold lowerChars at h
  have : t.data = [] := by
    cases hd : t.data with
    | nil => rfl
    | cons c cs => rw [hd] at h; simp at h
  cases t
  simp_all

/-- C2 sanity examples. -/
example : apply_filters_to_items ["x", "raf"] [{ title := some "RAFFLE" }] =
    ([], [({ title := some "RAFFLE" }, "raf")]) := by decide
example : apply_filters_to_items ["raf"] [{ title := none }] =
    ([{ title := none }], []) := by decide

/-- C2: with a non-empty filter set of non-empty terms, a record is
rejected iff some term is a case-insensitive substring of its title;
the term reported for a rejected record is the first matching term in
filter-set order (`List.find?`); and a record with a missing or empty
title is kept. -/
theorem c2_first_match_semantics (F : List String) (R : List Record)
    (hne : F ≠ []) (hok : ∀ f ∈ F, f ≠ "") :
    (∀ r ∈ R, (r ∈ (apply_filters_to_items F R).2.map Prod.fst ↔
        ∃ t ∈ F, isInfixB (lowerChars t) (titleKey r) = true)) ∧
    (∀ p ∈ (apply_filters_to_items F R).2,
        F.find? (fun t => isInfixB (lowerChars t) (titleKey p.1)) = some p.2) ∧
    (∀ r ∈ R, r.title = none ∨ r.title = some "" →
        r ∈ (apply_filters_to_items F R).1) := by
  rw [apply_filters_eq_applyGo F R hne hok]
  set active := F.map (fun f => (f, lowerChars f)) with hactive
  refine ⟨?_, ?_, ?_⟩
  · intro r _hr
    constructor
    · intro hmem
      rcases List.mem_map.mp hmem with ⟨p, hp, hpx⟩
      have h2 := applyGo_rej active R p hp
      rw [hpx, hactive, firstMatch_map] at h2
      have h3 : (F.find? (fun t => isInfixB (lowerChars t) (titleKey r))).isSome := by
        rw [h2]; rfl
      rcases List.find?_isSome.mp h3 with ⟨t, ht, htm⟩
      exact ⟨t, ht, htm⟩
    · intro ⟨t, ht, htm⟩
      have h3 : (F.find? (fun t => isInfixB (lowerChars t) (titleKey r))).isSome :=
        List.find?_isSome.mpr ⟨t, ht, htm⟩
      rcases ho : F.find? (fun t => isInfixB (lowerChars t) (titleKey r)) with _ | u
      · rw [ho] at h3; cases h3
      · have h4 : firstMatch active (titleKey r) = some u := by
          rw [hactive, firstMatch_map, ho]
        have h5 := applyGo_mem_rej active R r u _hr h4
        exact List.mem_map.mpr ⟨(r, u), h5, rfl⟩
  · intro p hp
    have h2 := applyGo_rej active R p hp
    rw [hactive, firstMatch_map] at h2
    exact h2
  · intro r hr htitle
    have hkey : titleKey r = [] := by
      rcases htitle with h | h <;> simp [titleKey, lowerChars, h]
    have hnone : firstMatch active (titleKey r) = none := by
      rw [hactive, firstMatch_map, hkey]
      apply List.find?_eq_none.mpr
      intro t ht
      have h1 : lowerChars t ≠ [] := lowerChars_ne_nil t (hok t ht)
      rcases hc : lowerChars t with _ | ⟨c, cs⟩
      · exact absurd hc h1
      · simp [isInfixB]
    exact applyGo_mem_kept active R r hr hnone

/-- C2 witness: the concrete example of the spec: a single filter
`"raffle"` rejects the record titled `"RAFFLE"`, case-insensitively. -/
theorem c2_first_match_semantics_witness :
    ((["raffle"] : List String) ≠ []) ∧ (∀ f ∈ ["raffle"], f ≠ "") ∧
    ((∀ r ∈ [({ title := some "RAFFLE" } : Record)],
        (r ∈ (apply_filters_to_items ["raffle"] [{ title := some "RAFFLE" }]).2.map Prod.fst ↔
          ∃ t ∈ ["raffle"], isInfixB (lowerChars t) (titleKey r) = true)) ∧
      (∀ p ∈ (apply_filters_to_items ["raffle"] [{ title := some "RAFFLE" }]).2,
        List.find? (fun t => isInfixB (lowerChars t) (titleKey p.1)) ["raffle"] = some p.2) ∧
      (∀ r ∈ [({ title := some "RAFFLE" } : Record)], r.title = none ∨ r.title = some "" →
        r ∈ (apply_filters_to_items ["raffle"] [{ title := some "RAFFLE" }]).1)) :=
  ⟨by decide, by decide,
    c2_first_match_semantics ["raffle"] [{ title := some "RAFFLE" }] (by decide) (by decide)⟩

/-! ## The bounded log buffer (lines 89-96 of the source) -/

/-- A log entry as built by `add_log`: a UTC timestamp string and the
message. -/
structure LogEntry where
  timestamp : String
  message : String
deriving DecidableEq

/-- `MAX_LOGS = 200`. -/
def MAX_LOGS : Nat := 200

/-- The buffer mutation of `add_log`: append the entry, then
`log_entries.pop(0)` if the length exceeds `MAX_LOGS`. (The
`publish_event` side effect is modelled with the event bus below.) -/
def add_log (buf : List LogEntry) (e : LogEntry) : List LogEntry :=
  let b := buf ++ [e]
  if MAX_LOGS < b.length then b.drop 1 else b

/-- A whole sequence of `add_log` calls, oldest first. -/
def add_log_all (buf : List LogEntry) (es : List LogEntry) : List LogEntry :=
  es.foldl add_log buf

theorem add_log_all_eq_drop (es : List LogEntry) :
    ∀ buf : List LogEntry, buf.length ≤ MAX_LOGS →
      add_log_all buf es = (buf ++ es).drop (buf.length + es.length - MAX_LOGS) := by
  induction es with
  | nil =>
      intro buf hbuf
      have h0 : buf.length + ([] : List LogEntry).length - MAX_LOGS = 0 := by
        simp only [List.length_nil]
        omega
      rw [h0]
      simp [add_log_all]
  | cons e rest ih =>
      intro buf hbuf
      have hstep : add_log_all buf (e :: rest) = add_log_all (add_log buf e) rest := rfl
      by_cases hfull : buf.length = MAX_LOGS
      · have hcond : MAX_LOGS < (buf ++ [e]).length := by
          simp only [List.length_append, List.length_cons, List.length_nil]
          omega
        have hal : add_log buf e = (buf ++ [e]).drop 1 := by
          simp only [add_log, if_pos hcond]
        have hlen1 : ((buf ++ [e]).drop 1).length = MAX_LOGS := by
          simp only [List.length_drop, List.length_append, List.length_cons,
            List.length_nil]
          omega
        rw [hstep, hal, ih _ (le_of_eq hlen1), hlen1]
        have h1 : (1 : Nat) ≤ (buf ++ [e]).length := by
          simp only [List.length_append, List.length_cons, List.length_nil]
          omega
        have h2 : (buf ++ [e]).drop 1 ++ rest = ((buf ++ [e]) ++ rest).drop 1 :=
          (List.drop_append_of_le_length h1).symm
        have hidx : MAX_LOGS + rest.length - MAX_LOGS = rest.length := by omega
        have hidx2 : buf.length + (e :: rest).length - MAX_LOGS = rest.length + 1 := by
          simp only [List.length_cons]
          omega
        rw [hidx, hidx2, h2, List.drop_drop, List.append_assoc,
          List.singleton_append, Nat.add_comm]
      · have hle : buf.length + 1 ≤ MAX_LOGS := by omega
        have hcond : ¬ MAX_LOGS < (buf ++ [e]).length := by
          simp only [List.length_append, List.length_cons, List.length_nil]
          omega
        have hal : add_log buf e = buf ++ [e] := by
          simp only [add_log, if_neg hcond]
        have hlen1 : (buf ++ [e]).length ≤ MAX_LOGS := by
          simp only [List.length_append, List.length_cons, List.length_nil]
          omega
        rw [hstep, hal, ih _ hlen1]
        have hidx : (buf ++ [e]).length + rest.length - MAX_LOGS =
            buf.length + (e :: rest).length - MAX_LOGS := by
          simp only [List.length_append, List.length_cons, List.length_nil]
          omega
        rw [hidx, List.append_assoc, List.singleton_append]

/-- C3 sanity example: four appends with cap 200 keep everything. -/
example :
    add_log_all [] [⟨"t1", "a"⟩, ⟨"t2", "b"⟩, ⟨"t3", "c"⟩, ⟨"t4", "d"⟩] =
      [⟨"t1", "a"⟩, ⟨"t2", "b"⟩, ⟨"t3", "c"⟩, ⟨"t4", "d"⟩] := by rfl

/-- C3: the log buffer never exceeds `MAX_LOGS` entries after any
sequence of `add_log` calls starting from a buffer within the cap, and
appending `MAX_LOGS + k` entries to an empty buffer leaves exactly the
last `MAX_LOGS` entries in their original order (the first `k` evicted
FIFO). -/
theorem c3_log_cap_fifo :
    (∀ (buf : List LogEntry) (es : List LogEntry), buf.length ≤ MAX_LOGS →
      (add_log_all buf es).length ≤ MAX_LOGS) ∧
    (∀ (es : List LogEntry) (k : Nat), es.length = MAX_LOGS + k →
      add_log_all [] es = es.drop k ∧ (add_log_all [] es).length = MAX_LOGS) := by
  constructor
  · intro buf es hbuf
    rw [add_log_all_eq_drop es buf hbuf]
    simp only [List.length_drop, List.length_append]
    omega
  · intro es k hk
    have h1 := add_log_all_eq_drop es [] (by simp [MAX_LOGS])
    simp only [List.length_nil, List.nil_append, Nat.zero_add] at h1
    have h2 : es.length - MAX_LOGS = k := by omega
    rw [h2] at h1
    refine ⟨h1, ?_⟩
    rw [h1]
    simp only [List.length_drop]
    omega

/-- C3 witness: appending 201 entries to the empty buffer drops exactly
the oldest one and the buffer stays at the 200-entry cap. -/
theorem c3_log_cap_fifo_witness :
    (List.replicate 201 (⟨"ts", "m"⟩ : LogEntry)).length = MAX_LOGS + 1 ∧
    add_log_all [] (List.replicate 201 ⟨"ts", "m"⟩) =
      (List.replicate 201 (⟨"ts", "m"⟩ : LogEntry)).drop 1 ∧
    (add_log_all [] (List.replicate 201 ⟨"ts", "m"⟩)).length = MAX_LOGS := by
  have hlen : (List.replicate 201 (⟨"ts", "m"⟩ : LogEntry)).length = MAX_LOGS + 1 := by
    rw [List.length_replicate]
    decide
  have h := c3_log_cap_fifo.2 (List.replicate 201 ⟨"ts", "m"⟩) 1 hlen
  exact ⟨hlen, h.1, h.2⟩

/-! ## The total-raised display (lines 268-277 of the source)

The `main` cycle computes
`tr_float = float(total_raised.replace('$','').replace(',','')) if total_raised else 0.0`
inside a `try`, then formats `tr_float + adj` with `f"${...:,.2f}"`;
on an exception (only the `float(...)` call can raise) it falls back to
`f"{total_raised} (+{adj:+.2f})"`.

Python float values are modelled as rationals. The string accepted by
`float()` is modelled by `pyFloat`: optional surrounding whitespace, an
optional sign, a decimal mantissa with an optional single point, and an
optional exponent. (The rarely used `inf`/`nan` spellings and digit
underscores are outside the model; no claim input uses them.) The
2-decimal formatting rounds half up on exact rationals, which agrees
with CPython on every value appearing in the claims. -/

/-- Whitespace as stripped by `float()` around its argument. -/
def isWsChar (c : Char) : Bool :=
  c = ' ' || c = '\t' || c = '\n' || c = '\r' || c = '\x0b' || c = '\x0c'

/-- Strip whitespace from both ends of a character list. -/
def trimWs (cs : List Char) : List Char :=
  ((cs.dropWhile isWsChar).reverse.dropWhile isWsChar).reverse

/-- Numeric value of a digit string, most significant first. -/
def digitsVal (ds : List Char) : Nat :=
  ds.foldl (fun acc c => acc * 10 + (c.toNat - '0'.toNat)) 0

/-- The mantissa part of a `float()` literal: digits with at most one
decimal point and at least one digit. -/
def parseMantissa (cs : List Char) : Option ℚ :=
  let ip := cs.takeWhile (fun c => c ≠ '.')
  let rest := cs.dropWhile (fun c => c ≠ '.')
  match rest with
  | [] => if ip.all Char.isDigit && !ip.isEmpty then some (digitsVal ip) else none
  | _ :: fp =>
      if fp.contains '.' then none
      else if ip.all Char.isDigit && fp.all Char.isDigit &&
          !(ip.isEmpty && fp.isEmpty) then
        some ((digitsVal ip : ℚ) + (digitsVal fp : ℚ) / (10 : ℚ) ^ fp.length)
      else none

/-- The exponent part of a `float()` literal: empty, or `e`/`E`, an
optional sign and at least one digit. -/
def parseExp (cs : List Char) : Option Int :=
  match cs with
  | [] => some 0
  | e :: rest =>
      if e = 'e' || e = 'E' then
        match rest with
        | '+' :: ds =>
            if ds.all Char.isDigit && !ds.isEmpty then some (digitsVal ds) else none
        | '-' :: ds =>
            if ds.all Char.isDigit && !ds.isEmpty then some (-(digitsVal ds : Int)) else none
        | ds =>
            if ds.all Char.isDigit && !ds.isEmpty then some (digitsVal ds) else none
      else none

/-- Model of Python `float(s)`: `some` value on success, `none` when the
call raises `ValueError`. -/
def pyFloat (s : String) : Option ℚ :=
  let cs := trimWs s.data
  let signAndRest : ℚ × List Char :=
    match cs with
    | '+' :: r => (1, r)
    | '-' :: r => (-1, r)
    | r => (1, r)
  let mant := signAndRest.2.takeWhile (fun c => c ≠ 'e' && c ≠ 'E')
  let expPart := signAndRest.2.dropWhile (fun c => c ≠ 'e' && c ≠ 'E')
  match parseMantissa mant, parseExp expPart with
  | some m, some e => some (signAndRest.1 * m * (10 : ℚ) ^ e)
  | _, _ => none

/-- `total_raised.replace('$','').replace(',','')`: every dollar sign
and comma removed. -/
def stripMoney (s : String) : String :=
  ⟨s.data.filter (fun c => c ≠ '$' && c ≠ ',')⟩

/-- Insert a comma after every third character, input least significant
first (helper for the `,` grouping of `f"{x:,.2f}"`). -/
def group3Aux : List Char → List Char
  | a :: b :: c :: d :: rest => a :: b :: c :: ',' :: group3Aux (d :: rest)
  | short => short

/-- Thousands grouping of a digit string, most significant first. -/
def group3 (ds : List Char) : List Char :=
  (group3Aux ds.reverse).reverse

/-- Cents of a nonnegative rational, rounding half up. -/
def centsOf (q : ℚ) : Nat :=
  (Rat.floor (q * 100 + 1 / 2)).toNat

/-- Two-digit fractional part. -/
def frac2 (c : Nat) : String :=
  if c % 100 < 10 then "0" ++ Nat.repr (c % 100) else Nat.repr (c % 100)

/-- `f"{x:,.2f}"` on a nonnegative value given in cents: grouped whole
part, point, two-digit fraction. -/
def centsString (c : Nat) : String :=
  ⟨group3 (Nat.repr (c / 100)).data⟩ ++ "." ++ frac2 c

/-- `f"{x:,.2f}"`: signed, comma-grouped, two decimals. -/
def fmt2 (q : ℚ) : String :=
  if q < 0 then "-" ++ centsString (centsOf (-q)) else centsString (centsOf q)

/-- `f"${x:,.2f}"`: the currency display of a numeric total. -/
def fmtCurrency (q : ℚ) : String :=
  "$" ++ fmt2 q

/-- `f"{adj:+.2f}"`: always-signed two-decimal format, no grouping. -/
def fmtSigned (q : ℚ) : String :=
  if q < 0 then "-" ++ Nat.repr (centsOf (-q) / 100) ++ "." ++ frac2 (centsOf (-q))
  else "+" ++ Nat.repr (centsOf q / 100) ++ "." ++ frac2 (centsOf q)

/-- Lines 271-277 of the source: the display computed for the cycle
from the fetched total (`None` on a failed fetch) and the manual
adjustment. A falsy fetched total (absent or empty) contributes `0.0`;
a truthy one is parsed after stripping `$` and `,`, and a parse failure
takes the fallback branch `f"{total_raised} (+{adj:+.2f})"`. -/
def compute_display (total_raised : Option String) (adj : ℚ) : String :=
  match total_raised with
  | none => fmtCurrency (0 + adj)
  | some s =>
      if s = "" then fmtCurrency (0 + adj)
      else
        match pyFloat (stripMoney s) with
        | some v => fmtCurrency (v + adj)
        | none => s ++ " (+" ++ fmtSigned adj ++ ")"

/-! ### Display sanity examples -/

example : pyFloat "100.00" = some 100 := by with_unfolding_all decide
example : pyFloat "TBD" = none := by decide
example : pyFloat "" = none := by decide
example : pyFloat "-2.5e1" = some (-25) := by with_unfolding_all decide
example : fmtCurrency (1234567 + 89 / 100) = "$1,234,567.89" := by with_unfolding_all decide
example : compute_display (some "$100.00") (25 / 2) = "$112.50" := by with_unfolding_all decide

/-- C4 counterexample: when the totals fetch fails (`total_raised` is
`None`), the code takes the falsy branch `tr_float = 0.0` and renders a
NUMERIC currency total of the adjustment alone: with adjustment `12.5`
the display is `"$12.50"`, which itself parses as the number `12.5` —
not a fallback display string. -/
theorem c4_null_total_counterexample :
    compute_display none (25 / 2) = "$12.50" ∧
    pyFloat (stripMoney "$12.50") = some (25 / 2) := by
  with_unfolding_all decide

/-- C4 amended: when the totals fetch fails, the fetched total is
treated as `0.0`: the display is the numeric currency format of
`0 + adjustment` (the adjustment still applies), indistinguishable from
a fetched total of `"0"`; an empty fetched string behaves the same.
The fallback string path is never taken for an absent total. -/
theorem c4_null_total_amended (adj : ℚ) :
    compute_display none adj = fmtCurrency adj ∧
    compute_display none adj = compute_display (some "0") adj ∧
    compute_display (some "") adj = compute_display none adj := by
  have h0 : pyFloat (stripMoney "0") = some 0 := by with_unfolding_all rfl
  refine ⟨?_, ?_, ?_⟩
  · show fmtCurrency (0 + adj) = fmtCurrency adj
    rw [zero_add]
  · show fmtCurrency (0 + adj) =
      (if ("0" : String) = "" then fmtCurrency (0 + adj)
        else match pyFloat (stripMoney "0") with
          | some v => fmtCurrency (v + adj)
          | none => "0" ++ " (+" ++ fmtSigned adj ++ ")")
    rw [if_neg (by decide : ¬("0" : String) = ""), h0]
  · rfl

/-- C5 counterexample: an empty fetched total string fails the numeric
parse (Python `float('')` raises), yet the code takes the falsy branch
and displays the numeric total `"$5.00"` for adjustment `5.0` — not a
non-numeric string combining the raw text with the signed adjustment as
the claim requires for every parse failure. -/
theorem c5_display_counterexample :
    compute_display (some "") 5 = "$5.00" ∧
    pyFloat (stripMoney "") = none ∧
    pyFloat (stripMoney "$5.00") = some 5 := by
  with_unfolding_all decide

/-- C5 amended: for every NON-EMPTY fetched total string: a successful
parse (after stripping `$` and `,`) displays the parsed value plus the
adjustment as currency with two decimals, and a failed parse displays
the raw text with the signed adjustment appended; concretely,
`"$100.00"` with adjustment `12.5` gives `"$112.50"`, while `"TBD"`
with adjustment `5.0` gives `"TBD (++5.00)"`, which contains the raw
text and the signed `"+5.00"` and is non-numeric. (An empty fetched
string is instead treated as `0.0`, see the C4 theorems.) -/
theorem c5_display_amended :
    (∀ (s : String) (adj : ℚ), s ≠ "" →
      (∀ v : ℚ, pyFloat (stripMoney s) = some v →
        compute_display (some s) adj = fmtCurrency (v + adj)) ∧
      (pyFloat (stripMoney s) = none →
        compute_display (some s) adj = s ++ " (+" ++ fmtSigned adj ++ ")")) ∧
    compute_display (some "$100.00") (25 / 2) = "$112.50" ∧
    compute_display (some "TBD") 5 = "TBD (++5.00)" ∧
    isInfixB "TBD".data "TBD (++5.00)".data = true ∧
    isInfixB "+5.00".data "TBD (++5.00)".data = true ∧
    pyFloat (stripMoney "TBD (++5.00)") = none := by
  refine ⟨?_, ?_, ?_, by decide, by decide, by with_unfolding_all decide⟩
  · intro s adj hs
    have h1 : compute_display (some s) adj =
        (if s = "" then fmtCurrency (0 + adj)
          else match pyFloat (stripMoney s) with
            | some v => fmtCurrency (v + adj)
            | none => s ++ " (+" ++ fmtSigned adj ++ ")") := rfl
    constructor
    · intro v hv
      rw [h1, if_neg hs, hv]
    · intro hv
      rw [h1, if_neg hs, hv]
  · with_unfolding_all decide
  · with_unfolding_all decide

/-- C5 witness: the fallback branch of the amended statement applied at
the concrete spec example `"TBD"` with adjustment `5.0`. -/
theorem c5_display_amended_witness :
    (("TBD" : String) ≠ "") ∧ pyFloat (stripMoney "TBD") = none ∧
    compute_display (some "TBD") 5 = "TBD" ++ " (+" ++ fmtSigned 5 ++ ")" :=
  ⟨by decide, by with_unfolding_all decide,
    (c5_display_amended.1 "TBD" 5 (by decide)).2 (by with_unfolding_all decide)⟩

/-! ## The pagination walker `fetch_auction_items` (lines 98-167)

The walker keeps a `seen_pages` set and loops
`while next_url and next_url not in seen_pages`, adding the current URL
to the set before fetching it; a fetch error logs and breaks, keeping
partial items. The page universe is modelled as a finite association
list from URL to page content; a URL absent from it models a page whose
fetch raises (caught inside the loop). `Page.next` holds the already
resolved `urljoin(next_url, href)` target, `none` when there is no next
link. -/

/-- The content of one listing page: the records scraped from it and
the resolved next-page URL, if any. -/
structure Page where
  items : List Record
  next : Option String
deriving DecidableEq

/-- `session.get(next_url)` against the finite page universe. -/
def lookupPage (pages : List (String × Page)) (u : String) : Option Page :=
  (pages.find? (fun pr => pr.1 == u)).map Prod.snd

theorem lookupPage_mem (pages : List (String × Page)) (u : String) (pg : Page)
    (h : lookupPage pages u = some pg) : u ∈ pages.map Prod.fst := by
  unfold lookupPage at h
  rcases hf : pages.find? (fun pr => pr.1 == u) with _ | pr
  · rw [hf] at h; cases h
  · have hmem := List.mem_of_find?_eq_some hf
    have hpred := List.find?_some hf
    have heq : pr.1 = u := by simpa using hpred
    exact List.mem_map.mpr ⟨pr, hmem, heq⟩

theorem countP_lt_of_mem {α : Type} (p q : α → Bool) (l : List α)
    (hpq : ∀ x ∈ l, q x = true → p x = true) (u : α) (hu : u ∈ l)
    (hpu : p u = true) (hqu : q u = false) :
    l.countP q < l.countP p := by
  induction l with
  | nil => cases hu
  | cons a t ih =>
      rw [List.countP_cons, List.countP_cons]
      rcases List.mem_cons.mp hu with rfl | hut
      · have hle : t.countP q ≤ t.countP p :=
          List.countP_mono_left (fun x hx => hpq x (List.mem_cons_of_mem _ hx))
        rw [hqu, hpu]
        simp only [Bool.false_eq_true, if_false, if_true]
        omega
      · have hlt := ih (fun x hx h => hpq x (List.mem_cons_of_mem _ hx) h) hut
        have hif : (if q a = true then 1 else 0) ≤ (if p a = true then 1 else 0) := by
          by_cases hqa : q a = true
          · rw [if_pos hqa, if_pos (hpq a (List.mem_cons_self _ _) hqa)]
          · rw [if_neg hqa]
            omega
        omega

/-- `fetch_auction_items`: walk the next-page chain from `next_url`,
never revisiting a URL in `seen`; returns the accumulated items and the
list of URLs actually fetched, in fetch order. An empty (falsy) next
URL and an already-seen next URL both end the walk; a URL outside the
page universe is fetched (appearing in the fetch trace), raises, is
logged and breaks the walk. -/
def crawlLoop (pages : List (String × Page)) (seen : List String) (next_url : Option String) :
    List Record × List String :=
  match next_url with
  | none => ([], [])
  | some u =>
      if u = "" then ([], [])
      else if hs : u ∈ seen then ([], [])
      else
        match hl : lookupPage pages u with
        | none => ([], [u])
        | some pg =>
            let r := crawlLoop pages (u :: seen) pg.next
            (pg.items ++ r.1, u :: r.2)
termination_by ((pages.map Prod.fst).filter (fun k => decide (k ∉ seen))).length
decreasing_by
  simp_wf
  rw [← List.countP_eq_length_filter, ← List.countP_eq_length_filter]
  apply countP_lt_of_mem _ _ _ ?hpq u (lookupPage_mem pages u pg hl) ?hpu ?hqu
  case hpq =>
    intro x _hx hq
    simp only [Bool.and_eq_true, Bool.not_eq_true', decide_eq_false_iff_not] at hq
    simp only [Bool.not_eq_true', decide_eq_false_iff_not]
    exact hq.2
  case hpu =>
    simp only [Bool.not_eq_true', decide_eq_false_iff_not]
    exact hs
  case hqu => simp

/-- C10 sanity example: two pages whose next links form a cycle are
each fetched once and the walk stops. -/
example :
    crawlLoop [("a", ⟨[{ title := some "x" }], some "b"⟩), ("b", ⟨[], some "a"⟩)]
      [] (some "a") = ([{ title := some "x" }], ["a", "b"]) := by
  simp [crawlLoop.eq_def, lookupPage, List.find?]

/-! ### One-step unfolding lemmas for the walker -/

theorem crawl_none (pages : List (String × Page)) (seen : List String) :
    crawlLoop pages seen none = ([], []) := by
  rw [crawlLoop.eq_def]

theorem crawl_empty_url (pages : List (String × Page)) (seen : List String) :
    crawlLoop pages seen (some "") = ([], []) := by
  rw [crawlLoop.eq_def]
  simp

theorem crawl_seen (pages : List (String × Page)) (seen : List String) (u : String)
    (h1 : ¬ u = "") (h2 : u ∈ seen) :
    crawlLoop pages seen (some u) = ([], []) := by
  rw [crawlLoop.eq_def]
  simp [h1, h2]

theorem crawl_missing (pages : List (String × Page)) (seen : List String) (u : String)
    (h1 : ¬ u = "") (h2 : u ∉ seen) (h3 : lookupPage pages u = none) :
    crawlLoop pages seen (some u) = ([], [u]) := by
  rw [crawlLoop.eq_def]
  simp only [if_neg h1, dif_neg h2]
  split <;> simp_all

theorem crawl_found (pages : List (String × Page)) (seen : List String) (u : String)
    (pg : Page) (h1 : ¬ u = "") (h2 : u ∉ seen) (h4 : lookupPage pages u = some pg) :
    crawlLoop pages seen (some u) =
      (pg.items ++ (crawlLoop pages (u :: seen) pg.next).1,
        u :: (crawlLoop pages (u :: seen) pg.next).2) := by
  rw [crawlLoop.eq_def]
  simp only [if_neg h1, dif_neg h2]
  split <;> simp_all

/-- C10: the pagination walker terminates on every finite page universe
(witnessed by `crawlLoop` being a total function, including next-links
that form a cycle or point back to a visited URL), its fetch trace
never repeats a URL, and it never fetches a URL already in the visited
set. -/
theorem c10_crawl_no_refetch (pages : List (String × Page)) (seen : List String)
    (next_url : Option String) (hseen : seen.Nodup) :
    (crawlLoop pages seen next_url).2.Nodup ∧
    ∀ u ∈ (crawlLoop pages seen next_url).2, u ∉ seen := by
  revert hseen
  induction seen, next_url using crawlLoop.induct pages with
  | case1 seen =>
      intro _hseen
      rw [crawl_none]
      simp
  | case2 seen =>
      intro _hseen
      rw [crawl_empty_url]
      simp
  | case3 seen u h1 h2 =>
      intro _hseen
      rw [crawl_seen pages seen u h1 h2]
      simp
  | case4 seen u h1 h2 h3 =>
      intro _hseen
      rw [crawl_missing pages seen u h1 h2 h3]
      constructor
      · simp
      · intro x hx
        rcases List.mem_singleton.mp hx with rfl
        exact h2
  | case5 seen u h1 h2 pg h4 ih =>
      intro hseen
      have hnod : (u :: seen).Nodup := List.nodup_cons.mpr ⟨h2, hseen⟩
      have ihr := ih hnod
      rw [crawl_found pages seen u pg h1 h2 h4]
      constructor
      · apply List.nodup_cons.mpr
        refine ⟨?_, ihr.1⟩
        intro hu
        exact (ihr.2 u hu) (List.mem_cons_self u seen)
      · intro x hx
        rcases List.mem_cons.mp hx with rfl | hx2
        · exact h2
        · intro hxs
          exact (ihr.2 x hx2) (List.mem_cons_of_mem _ hxs)

/-- C10 witness: the walk over a two-page cycle, started on an empty
visited set, has a duplicate-free fetch trace. -/
theorem c10_crawl_no_refetch_witness :
    ([] : List String).Nodup ∧
    (crawlLoop [("a", ⟨[], some "b"⟩), ("b", ⟨[], some "a"⟩)] [] (some "a")).2.Nodup ∧
    ∀ u ∈ (crawlLoop [("a", ⟨[], some "b"⟩), ("b", ⟨[], some "a"⟩)] [] (some "a")).2,
      u ∉ ([] : List String) :=
  ⟨List.nodup_nil,
    (c10_crawl_no_refetch [("a", ⟨[], some "b"⟩), ("b", ⟨[], some "a"⟩)] [] (some "a")
      List.nodup_nil).1,
    (c10_crawl_no_refetch [("a", ⟨[], some "b"⟩), ("b", ⟨[], some "a"⟩)] [] (some "a")
      List.nodup_nil).2⟩

/-! ## One scrape cycle (lines 256-296 of the source)

The cycle body of `main`: fetch items (per-page failures are caught
inside `fetch_auction_items`), apply filters, fetch the total
(`get_total_raised` catches its own exceptions and returns `None`),
compute the display, then write `auction_items.json`. The two external
failure points that the cycle survives are modelled as oracles; the
artifact write is modelled as an `Except` oracle because the
`open`/`json.dump` call at lines 285-286 is NOT inside any
`try`/`except` — the surrounding `try` of `main` only handles
`KeyboardInterrupt`, so any other exception from the write escapes the
`while True` loop. -/

/-- `get_total_raised`: the whole body is inside `try`/`except`; a
raised exception is logged and `None` is returned, and a summary page
without the `div.raised.amt` element also yields `None`. -/
def get_total_raised (fetchResult : Except String (Option String)) : Option String :=
  match fetchResult with
  | .error _ => none
  | .ok v => v

/-- The artifact written each cycle (`output` dict of lines 278-284). -/
structure ScrapeOutput where
  total_items : Nat
  total_raised : String
  items : List Record
deriving DecidableEq

/-- The external world one cycle runs against: the page universe and
start URL for the crawler, the totals fetch outcome, the artifact write
outcome, and the shared state read by the cycle (adjustment and
filters). -/
structure CycleEnv where
  pages : List (String × Page)
  startUrl : String
  totalsFetch : Except String (Option String)
  writeResult : Except String Unit
  adj : ℚ
  filters : List String

/-- One scrape cycle. Returns `.ok` with the written artifact, or
`.error` carrying the exception that escaped the cycle; only the
unguarded artifact write can produce the latter. -/
def run_cycle (env : CycleEnv) : Except String ScrapeOutput :=
  let items := (crawlLoop env.pages [] (some env.startUrl)).1
  let kr := apply_filters_to_items env.filters items
  let total := get_total_raised env.totalsFetch
  let display := compute_display total env.adj
  match env.writeResult with
  | .error e => .error e
  | .ok _ => .ok ⟨kr.1.length, display, kr.1⟩

/-- C6 counterexample: a cycle in which every fetch succeeds but the
artifact write raises (for example on a full disk) propagates that
exception out of the cycle body; in `main` only `KeyboardInterrupt` is
handled, so this terminates the Scheduler loop, contradicting the claim
that every step of the cycle is individually guarded. -/
theorem c6_write_unguarded_counterexample :
    run_cycle { pages := [], startUrl := "https://example.test/a",
                totalsFetch := .ok (some "$100.00"),
                writeResult := .error "OSError: No space left on device",
                adj := 0, filters := [] } =
      .error "OSError: No space left on device" := by
  rw [run_cycle]

/-- C6 amended: no exception from the page fetch or the totals fetch
escapes the cycle — both are guarded and the cycle proceeds with
partial data for every page universe and every totals outcome — but the
artifact write is unguarded: the cycle returns normally exactly when
the write does not raise, and propagates exactly the write's exception
otherwise. -/
theorem c6_guarded_steps_amended (env : CycleEnv) :
    (env.writeResult = .ok () →
      run_cycle env = .ok ⟨(apply_filters_to_items env.filters
          (crawlLoop env.pages [] (some env.startUrl)).1).1.length,
        compute_display (get_total_raised env.totalsFetch) env.adj,
        (apply_filters_to_items env.filters
          (crawlLoop env.pages [] (some env.startUrl)).1).1⟩) ∧
    (∀ e, env.writeResult = .error e → run_cycle env = .error e) := by
  constructor
  · intro hw
    rw [run_cycle, hw]
  · intro e hw
    rw [run_cycle, hw]

/-- C6 witness: a cycle whose totals fetch raises and whose page fetch
finds no page still completes normally (with the adjustment-only
display), because those two steps are guarded. -/
theorem c6_guarded_steps_amended_witness :
    ({ pages := [], startUrl := "https://example.test/a",
       totalsFetch := .error "requests.exceptions.ConnectionError",
       writeResult := .ok (), adj := 5, filters := [] } : CycleEnv).writeResult = .ok () ∧
    run_cycle { pages := [], startUrl := "https://example.test/a",
                totalsFetch := .error "requests.exceptions.ConnectionError",
                writeResult := .ok (), adj := 5, filters := [] } =
      .ok ⟨0, compute_display none 5, []⟩ := by
  refine ⟨rfl, ?_⟩
  have h := (c6_guarded_steps_amended
    { pages := [], startUrl := "https://example.test/a",
      totalsFetch := .error "requests.exceptions.ConnectionError",
      writeResult := .ok (), adj := 5, filters := [] }).1 rfl
  rw [h]
  have hcrawl : crawlLoop [] [] (some "https://example.test/a") =
      ([], ["https://example.test/a"]) := by
    apply crawl_missing
    · decide
    · simp
    · rfl
  simp [hcrawl, apply_filters_to_items, activeFilters, get_total_raised]

/-! ## The Scheduler control loop of `main` (lines 222-258, 357-386)

The loop is modelled as a step machine observed at its 1-second
granularity. `PC.top` is the top of `while True`; `PC.count i` is the
start of the `for i in range(REFRESH_INTERVAL, 0, -1)` iteration with
loop value `i` (so `PC.count 0` is the exhausted for-loop, past every
pause/trigger check, about to run the cycle); `PC.run` is the cycle
body itself (`status["next_refresh_in"] = 0` has run). One `tick`
performs the flag reads of one observation point; the whole scrape
cycle is collapsed into the single `PC.run` step, which ends by setting
`next_refresh_in` back to the full interval (lines 292-296). Control
commands of the `/refresh` endpoint (`set_refresh`) may arrive between
any two ticks and are modelled by the non-tick `Act`ions, each also
performing the `update_status` write of its handler. `cycles` counts
completed scrape cycles. -/

/-- `REFRESH_INTERVAL = 10` seconds. -/
def REFRESH_INTERVAL : Nat := 10

/-- Scheduler program counter, see the section comment. -/
inductive PC where
  | top : PC
  | count : Nat → PC
  | run : PC
deriving DecidableEq

/-- The scheduler-visible shared state: position in the loop, the
`refresh_paused` and `refresh_now` flags, `status["next_refresh_in"]`,
and the number of completed cycles. -/
structure Sched where
  pc : PC
  paused : Bool
  trigger : Bool
  next_refresh_in : Option Nat
  cycles : Nat
deriving DecidableEq

/-- One observation step of the loop. At `top` (lines 224-236): a set
pause flag parks the loop (`next_refresh_in = None`, sleep, continue);
otherwise a pending trigger is consumed and the cycle starts at once
(skipping the countdown, `next_refresh_in = 0`); otherwise the
countdown begins. At `count (i+1)` (lines 238-253): pause parks the
loop, a pending trigger is consumed and fires, otherwise
`next_refresh_in = i+1` is shown and one second passes. At `count 0`
the for-loop is exhausted with the local `paused` still false, so the
cycle starts unconditionally. `run` completes the cycle and resets the
countdown to the full interval. -/
def tick (s : Sched) : Sched :=
  match s.pc with
  | .top =>
      if s.paused then { s with next_refresh_in := none }
      else if s.trigger then
        { s with trigger := false, next_refresh_in := some 0, pc := .run }
      else { s with pc := .count REFRESH_INTERVAL }
  | .count 0 => { s with next_refresh_in := some 0, pc := .run }
  | .count (i + 1) =>
      if s.paused then { s with next_refresh_in := none, pc := .top }
      else if s.trigger then
        { s with trigger := false, next_refresh_in := some 0, pc := .run }
      else { s with next_refresh_in := some (i + 1), pc := .count i }
  | .run =>
      { s with pc := .top, next_refresh_in := some REFRESH_INTERVAL,
               cycles := s.cycles + 1 }

/-- An event observable by the scheduler state: one second of the loop,
or one `/refresh` control request (`pause`, `resume`, `now` branches of
`set_refresh`, each with its `update_status` write). -/
inductive Act where
  | tick : Act
  | pause : Act
  | resume : Act
  | now : Act
deriving DecidableEq

/-- Apply one action to the scheduler state. -/
def exec (a : Act) (s : Sched) : Sched :=
  match a with
  | .tick => tick s
  | .pause => { s with paused := true, next_refresh_in := none }
  | .resume => { s with paused := false, next_refresh_in := some REFRESH_INTERVAL }
  | .now => { s with trigger := true, next_refresh_in := some 0 }

/-- Run a sequence of actions, oldest first. -/
def run_sched (acts : List Act) (s : Sched) : Sched :=
  acts.foldl (fun st a => exec a st) s

/-- The initial state of `main` (status dict of lines 32-36). -/
def initSched : Sched :=
  { pc := .top, paused := false, trigger := false,
    next_refresh_in := some REFRESH_INTERVAL, cycles := 0 }

/-- The positions at which the loop reads the pause flag: the loop top
and the start of a countdown iteration. -/
def atCheckB : PC → Bool
  | .top => true
  | .count (_ + 1) => true
  | _ => false

theorem paused_checkpoint_step (s : Sched) (a : Act) (ha : a ≠ Act.resume)
    (hp : s.paused = true) (hc : atCheckB s.pc = true) :
    (exec a s).paused = true ∧ atCheckB (exec a s).pc = true ∧
    (exec a s).cycles = s.cycles := by
  cases a with
  | tick =>
      cases hpc : s.pc with
      | top => simp [exec, tick, hpc, hp, atCheckB]
      | count i =>
          cases i with
          | zero => rw [hpc] at hc; simp [atCheckB] at hc
          | succ j => simp [exec, tick, hpc, hp, atCheckB]
      | run => rw [hpc] at hc; simp [atCheckB] at hc
  | pause => simp [exec, hp, hc]
  | resume => exact absurd rfl ha
  | now => simp [exec, hp, hc]

/-- C7 counterexample: a pause request that lands during the last
second of the countdown (after the final in-loop pause check) does not
stop the imminent cycle: eleven ticks bring the fresh scheduler to the
exhausted countdown, then `pause` sets the flag, and the next tick
still enters `RUNNING_CYCLE` with the pause flag set. -/
theorem c7_pause_race_counterexample :
    (run_sched [.tick, .tick, .tick, .tick, .tick, .tick, .tick, .tick, .tick,
        .tick, .tick, .pause, .tick] initSched).paused = true ∧
    (run_sched [.tick, .tick, .tick, .tick, .tick, .tick, .tick, .tick, .tick,
        .tick, .tick, .pause, .tick] initSched).pc = PC.run := by decide

/-- C7 amended: `pause()` immediately reports `next_refresh_in = null`;
if the pause flag is set while the scheduler is at a pause check point
(loop top or the start of a countdown second), then under any further
actions containing no `resume` the scheduler stays at check points,
stays paused, and completes no cycle; and after `resume()` the status
shows the full interval again and the countdown restarts from
`REFRESH_INTERVAL`. (A pause landing after the final countdown check
does not stop the already-committed cycle, see the counterexample.) -/
theorem c7_pause_amended :
    (∀ s : Sched, (exec .pause s).next_refresh_in = none) ∧
    (∀ (s : Sched) (acts : List Act), s.paused = true → atCheckB s.pc = true →
      (∀ a ∈ acts, a ≠ Act.resume) →
      (run_sched acts s).cycles = s.cycles ∧ (run_sched acts s).paused = true ∧
      atCheckB (run_sched acts s).pc = true) ∧
    (∀ s : Sched, s.pc = PC.top → s.trigger = false →
      (exec .resume s).next_refresh_in = some REFRESH_INTERVAL ∧
      (tick (exec .resume s)).pc = PC.count REFRESH_INTERVAL ∧
      (tick (tick (exec .resume s))).next_refresh_in = some REFRESH_INTERVAL) := by
  refine ⟨fun s => rfl, ?_, ?_⟩
  · intro s acts
    induction acts generalizing s with
    | nil => intro _ _ _; exact ⟨rfl, by assumption, by assumption⟩
    | cons a rest ih =>
        intro hp hc hres
        have hstep := paused_checkpoint_step s a
          (hres a (List.mem_cons_self a rest)) hp hc
        have hrest := ih (exec a s) hstep.1 hstep.2.1
          (fun x hx => hres x (List.mem_cons_of_mem a hx))
        have hr : run_sched (a :: rest) s = run_sched rest (exec a s) := rfl
        rw [hr]
        exact ⟨hrest.1.trans hstep.2.2, hrest.2.1, hrest.2.2⟩
  · intro s hpc ht
    refine ⟨rfl, ?_, ?_⟩
    · simp [tick, exec, hpc, ht]
    · simp [tick, exec, hpc, ht, REFRESH_INTERVAL]

/-- A paused scheduler parked at the loop top. -/
def pausedTop : Sched :=
  { pc := .top, paused := true, trigger := false,
    next_refresh_in := none, cycles := 0 }

/-- C7 witness: from a paused scheduler at the loop top, a run with
ticks, a trigger request and another pause — but no resume — completes
no cycle; and the resume clause applied at the same state restores the
full countdown. -/
theorem c7_pause_amended_witness :
    ((exec .pause initSched).next_refresh_in = none) ∧
    (pausedTop.paused = true ∧ atCheckB pausedTop.pc = true ∧
      (run_sched [.tick, .now, .tick, .pause, .tick] pausedTop).cycles =
        pausedTop.cycles ∧
      (run_sched [.tick, .now, .tick, .pause, .tick] pausedTop).paused = true) ∧
    ((exec .resume pausedTop).next_refresh_in = some REFRESH_INTERVAL ∧
      (tick (exec .resume pausedTop)).pc = PC.count REFRESH_INTERVAL) := by
  have h2 := (c7_pause_amended.2.1 pausedTop [.tick, .now, .tick, .pause, .tick]
    rfl rfl (by decide))
  have h3 := c7_pause_amended.2.2 pausedTop rfl rfl
  exact ⟨c7_pause_amended.1 initSched, ⟨rfl, rfl, h2.1, h2.2.1⟩, h3.1, h3.2.1⟩

/-- A state whose next tick consumes the pending trigger: the flag is
set, the loop is not paused, and it is at a check point that reads
`refresh_now` (loop top or a countdown iteration). The exhausted
countdown `count 0` fires by exhaustion WITHOUT consuming the flag. -/
def consumesB (s : Sched) : Bool :=
  s.trigger && !s.paused && atCheckB s.pc

/-- Number of trigger consumptions in `n` command-free ticks. -/
def consumeCount : Nat → Sched → Nat
  | 0, _ => 0
  | n + 1, s => (if consumesB s then 1 else 0) + consumeCount n (tick s)

theorem tick_trigger_false (s : Sched) (h : s.trigger = false) :
    (tick s).trigger = false := by
  cases hpc : s.pc with
  | top => by_cases hp : s.paused <;> simp [tick, hpc, hp, h]
  | count i =>
      cases i with
      | zero => simp [tick, hpc, h]
      | succ j => by_cases hp : s.paused <;> simp [tick, hpc, hp, h]
  | run => simp [tick, hpc, h]

theorem consumeCount_of_trigger_false (n : Nat) (s : Sched) (h : s.trigger = false) :
    consumeCount n s = 0 := by
  induction n generalizing s with
  | zero => rfl
  | succ n ih =>
      have hc : consumesB s = false := by simp [consumesB, h]
      simp [consumeCount, hc, ih (tick s) (tick_trigger_false s h)]

theorem tick_consume_clears (s : Sched) (hc : consumesB s = true) :
    (tick s).trigger = false := by
  have h1 : (s.trigger = true ∧ s.paused = false) ∧ atCheckB s.pc = true := by
    simpa [consumesB, Bool.and_eq_true, Bool.not_eq_true'] using hc
  obtain ⟨⟨ht, hp⟩, hcb⟩ := h1
  cases hpc : s.pc with
  | top => simp [tick, hpc, hp, ht]
  | count i =>
      cases i with
      | zero => rw [hpc] at hcb; simp [atCheckB] at hcb
      | succ j => simp [tick, hpc, hp, ht]
  | run => rw [hpc] at hcb; simp [atCheckB] at hcb

/-- C8: a trigger pending while the scheduler is counting down makes
the very next observed state `RUNNING_CYCLE` regardless of the
remaining countdown, and a pending trigger is consumed at most once
over any number of further seconds: it can fire at most one
trigger-consuming cycle, never a double fire. -/
theorem c8_trigger_semantics :
    (∀ (s : Sched) (i : Nat), s.pc = PC.count i → s.paused = false →
      s.trigger = true → (tick s).pc = PC.run) ∧
    (∀ (s : Sched) (n : Nat), s.trigger = true → consumeCount n s ≤ 1) := by
  constructor
  · intro s i hpc hp ht
    cases i with
    | zero => simp [tick, hpc]
    | succ j => simp [tick, hpc, hp, ht]
  · intro s n
    induction n generalizing s with
    | zero => intro _; exact Nat.zero_le 1
    | succ n ih =>
        intro ht
        by_cases hc : consumesB s = true
        · have h0 := consumeCount_of_trigger_false n (tick s) (tick_consume_clears s hc)
          simp [consumeCount, hc, h0]
        · rcases htt : (tick s).trigger with _ | _
          · have h0 := consumeCount_of_trigger_false n (tick s) htt
            simp [consumeCount, hc, h0]
          · have hrest := ih (tick s) htt
            simpa [consumeCount, hc] using hrest

/-- C8 witness: a scheduler seven seconds from firing, not paused, with
a pending trigger, enters `RUNNING_CYCLE` on the next tick, and the
trigger is consumed at most once over the next thirty seconds. -/
theorem c8_trigger_semantics_witness :
    (({ pc := .count 7, paused := false, trigger := true,
          next_refresh_in := some 7, cycles := 0 } : Sched).pc = PC.count 7) ∧
    (tick { pc := .count 7, paused := false, trigger := true,
              next_refresh_in := some 7, cycles := 0 }).pc = PC.run ∧
    consumeCount 30 { pc := .count 7, paused := false, trigger := true,
                        next_refresh_in := some 7, cycles := 0 } ≤ 1 :=
  ⟨rfl,
    c8_trigger_semantics.1 _ 7 rfl rfl rfl,
    c8_trigger_semantics.2 _ 30 rfl⟩

/-! ## The event bus (lines 38-39, 58-87 of the source)

`subscribe_events` creates `q = Queue()` — the Python default, with
`maxsize=0`, i.e. an UNBOUNDED queue — and registers it.
`publish_event` iterates over a snapshot of the registered queues and
does `q.put(payload, timeout=0.1)` inside `try`/`except`/`continue`: a
put that raises affects only that subscriber. On an unbounded queue
`put` never blocks and never raises `Full`; the `broken` flag below
models a queue whose `put` raises for any other reason, exercising the
`except` branch. -/

/-- An event payload `{'type': ..., 'data': ...}`; the data is carried
opaquely as its serialized form. -/
structure Event where
  etype : String
  payload : String
deriving DecidableEq

/-- One subscriber delivery channel: the queued events in arrival
order, plus a flag modelling a `put` that raises. -/
structure SubChan where
  buf : List Event
  broken : Bool
deriving DecidableEq

/-- `q.put(payload, timeout=0.1)` under the `try`: on the unbounded
`Queue()` the put always succeeds by appending; a raising put leaves
the queue unchanged (the `except Exception: continue` branch). -/
def queue_put (c : SubChan) (e : Event) : SubChan :=
  if c.broken then c else { c with buf := c.buf ++ [e] }

/-- `publish_event`: deliver to every currently-registered subscriber
in turn, each put individually guarded. -/
def publish_event (subs : List SubChan) (e : Event) : List SubChan :=
  match subs with
  | [] => []
  | c :: rest => queue_put c e :: publish_event rest e

/-- `subscribe_events`: register a fresh empty unbounded queue. -/
def subscribe_events (subs : List SubChan) : List SubChan :=
  subs ++ [{ buf := [], broken := false }]

/-- `n` publishes of the same event with no consumer draining. -/
def publishIter (n : Nat) (subs : List SubChan) (e : Event) : List SubChan :=
  match n with
  | 0 => subs
  | n + 1 => publishIter n (publish_event subs e) e

theorem publish_event_head_buf (n : Nat) (c : SubChan) (e : Event)
    (hb : c.broken = false) :
    (publishIter n [c] e).headD { buf := [], broken := false } =
      { buf := c.buf ++ List.replicate n e, broken := false } := by
  induction n generalizing c with
  | zero =>
      cases c
      simp_all [publishIter]
  | succ n ih =>
      have hstep : publish_event [c] e = [queue_put c e] := rfl
      have hput : queue_put c e = { c with buf := c.buf ++ [e] } := by
        simp [queue_put, hb]
      rw [publishIter, hstep, hput, ih _ (by simp [hb])]
      simp [List.replicate_succ, List.append_assoc]

/-- C9 counterexample: the delivery channel created by
`subscribe_events` has NO bounded capacity: for every proposed bound
`C` the single fresh subscriber, never drained, holds `C + 1` events
after `C + 1` publishes, so no publish ever finds the buffer full and
the event is never dropped for capacity. -/
theorem c9_unbounded_counterexample :
    ¬ ∃ C : Nat, ∀ n : Nat,
      ((publishIter n (subscribe_events []) ⟨"log", "x"⟩).headD
        { buf := [], broken := false }).buf.length ≤ C := by
  rintro ⟨C, hC⟩
  have h := hC (C + 1)
  rw [show subscribe_events [] = [{ buf := [], broken := false }] from rfl,
    publish_event_head_buf (C + 1) { buf := [], broken := false } ⟨"log", "x"⟩ rfl] at h
  simp at h

/-- C9 amended: every subscriber has a PRIVATE UNBOUNDED channel;
`publish_event` delivers to each currently-registered subscriber
independently — the delivery to a subscriber is a function of that
subscriber alone, so a raising put for one subscriber cannot affect
any other — and a non-raising put always appends (nothing is ever
dropped for capacity, the buffer grows without bound). -/
theorem c9_publish_amended (xs ys : List SubChan) (c : SubChan) (e : Event) :
    publish_event (xs ++ c :: ys) e =
      publish_event xs e ++ queue_put c e :: publish_event ys e ∧
    (c.broken = false → queue_put c e = { c with buf := c.buf ++ [e] }) := by
  constructor
  · induction xs with
    | nil => rfl
    | cons x rest ih => simp [publish_event, ih]
  · intro hb
    simp [queue_put, hb]

/-- C9 witness: with a healthy subscriber between two others — one of
them a subscriber whose put raises — a publish appends the event to the
healthy subscriber and the raising put touches nobody else. -/
theorem c9_publish_amended_witness :
    publish_event [⟨[], true⟩, ⟨[], false⟩] ⟨"status", "s"⟩ =
      publish_event [⟨[], true⟩] ⟨"status", "s"⟩ ++
        queue_put ⟨[], false⟩ ⟨"status", "s"⟩ :: publish_event [] ⟨"status", "s"⟩ ∧
    queue_put ⟨[], false⟩ ⟨"status", "s"⟩ = ⟨[⟨"status", "s"⟩], false⟩ :=
  ⟨(c9_publish_amended [⟨[], true⟩] [] ⟨[], false⟩ ⟨"status", "s"⟩).1,
    (c9_publish_amended [⟨[], true⟩] [] ⟨[], false⟩ ⟨"status", "s"⟩).2 rfl⟩
